import Mathlib

/-!
# Archive-Slack-Files: a shallow embedding of `app.js`

The script lists the files of a Slack workspace that are older than a cutoff,
downloads them into one folder per channel and, with `--run-delete`, deletes
them from Slack.  This file embeds the three parts of `app.js` that carry its
logic:

* the response handler of `getem` (filter / map / filter over `data.files`),
  together with the filename derivation;
* the page loop `getUntil` of `getFiles`;
* the draining loop `deleteFiles` / `next` around `deleteFile`.

Promises are embedded by their settlement (`fulfilled`, `rejected`, or an
exception thrown before a promise exists), side effects by the list of events
they leave behind, and the remote service and the file system by functions that
give the outcome of each call.
-/

namespace ArchiveSlackFiles

/-! ## Strings, truthiness and dates -/

/-- The `message` of a JavaScript error. -/
abbrev Err := String

deriving instance DecidableEq for Except

/-- JavaScript truthiness of a string: every string but the empty one. -/
def truthy (s : String) : Bool := s.data.length != 0

/-- JavaScript truthiness of a value that is a string or `undefined`. -/
def truthyOpt : Option String → Bool
  | none => false
  | some s => truthy s

/-- The value of `xs[0]` for an array of strings: `undefined` for the empty array. -/
def first : List String → Option String
  | [] => none
  | x :: _ => some x

/-- String conversion inside a template literal: `undefined` prints as the word. -/
def display : Option String → String
  | none => "undefined"
  | some s => s

/-- The characters matched by the regular expression `/[\/\\:]/`: slash,
backslash (code 92) and colon. -/
def pathUnsafe (c : Char) : Bool := c == '/' || c == Char.ofNat 92 || c == ':'

/-- The call `.replace(/[\/\\:]/g, '_')`: every matched character becomes an underscore. -/
def replaceUnsafe (s : String) : String :=
  ⟨s.data.map fun c => if pathUnsafe c then '_' else c⟩

/-- The call `.slice(0, -5)`: the string without its last five characters. -/
def sliceOffFive (s : String) : String := ⟨s.data.take (s.data.length - 5)⟩

/-- The last `width` decimal digits of `n`, most significant first. -/
def pad : (width : Nat) → (n : Nat) → List Char
  | 0, _ => []
  | w + 1, n => pad w (n / 10) ++ [Char.ofNat (48 + n % 10)]

/-- Year, month and day of the proleptic Gregorian calendar for a day number
counted from 1970-01-01. -/
def civilFromDays (days : Int) : Int × Nat × Nat :=
  let z := days + 719468
  let era := z / 146097
  let doe := (z % 146097).toNat
  let yoe := (doe - doe / 1460 + doe / 36524 - doe / 146096) / 365
  let doy := doe - (365 * yoe + yoe / 4 - yoe / 100)
  let mp := (5 * doy + 2) / 153
  let d := doy - (153 * mp + 2) / 5 + 1
  let m := if mp < 10 then mp + 3 else mp - 9
  let y := (yoe : Int) + era * 400
  (if m ≤ 2 then y + 1 else y, m, d)

/-- The year field of `Date.prototype.toISOString`: four digits for the years
0 to 9999, otherwise a sign and six digits. -/
def isoYear (y : Int) : List Char :=
  if 0 ≤ y ∧ y ≤ 9999 then pad 4 y.toNat
  else (if y < 0 then '-' else '+') :: pad 6 y.natAbs

/-- The method `Date.prototype.toISOString` of `new Date(ms)`: the text
`YYYY-MM-DDTHH:mm:ss.sssZ`, or a `RangeError` when `ms` is outside the range
of a Date (8.64e15 milliseconds either side of the epoch). -/
def toISOString (ms : Int) : Except Err String :=
  if ms < -8640000000000000 ∨ 8640000000000000 < ms then
    .error "Invalid time value"
  else
    let (y, m, d) := civilFromDays (ms / 86400000)
    let r := (ms % 86400000).toNat
    .ok ⟨isoYear y ++ '-' :: pad 2 m ++ '-' :: pad 2 d ++ 'T' :: pad 2 (r / 3600000)
      ++ ':' :: pad 2 (r / 60000 % 60) ++ ':' :: pad 2 (r / 1000 % 60)
      ++ '.' :: pad 3 (r % 1000) ++ ['Z']⟩

/-! ## Data model -/

/-- An object built by `getUsers` or `getChannels`: the pairs `(id, name)`, the
most recent assignment first. -/
abbrev Directory := List (String × String)

/-- The property read `dir[id]`: `undefined` when no entry was assigned (the
keys that a JavaScript object inherits from its prototype are left out). -/
def Directory.get (dir : Directory) (id : String) : Option String := dir.lookup id

/-- The loop `entries.forEach(entry => res[entry.id] = entry.name)` from `{}`:
a later entry with the same id replaces an earlier one. -/
def buildDirectory (entries : List (String × String)) : Directory :=
  entries.foldl (fun res entry => entry :: res) []

/-- One element of `data.files` in a `files.list` response. -/
structure RawFile where
  timestamp : Int
  user : String
  name : String
  channels : List String
  url_private_download : Option String
  id : String
  deriving DecidableEq

/-- The object literal returned by the `map` callback of `getem`. -/
structure Descriptor where
  filename : String
  folder : Option String
  permalink : Option String
  id : String
  deriving DecidableEq

/-- The template literal of the `filename` field, before the replacement. -/
def filenameTemplate (users : Directory) (record : RawFile) : Except Err String :=
  match toISOString (record.timestamp * 1000) with
  | .error e => .error e
  | .ok iso => .ok (sliceOffFive iso ++ " - " ++ display (users.get record.user) ++ " - " ++ record.name)

/-- The `map` callback of `getem`: one raw entry to one descriptor.  It throws
when `toISOString` does. -/
def toDescriptor (users channels : Directory) (record : RawFile) : Except Err Descriptor :=
  match filenameTemplate users record with
  | .error e => .error e
  | .ok t => .ok {
      filename := replaceUnsafe t
      folder := (first record.channels).bind channels.get
      permalink := record.url_private_download
      id := record.id }

/-- The call `.map(record => ...)`: left to right, stopping at the first exception. -/
def mapRecords (users channels : Directory) : List RawFile → Except Err (List Descriptor)
  | [] => .ok []
  | record :: rest =>
    match toDescriptor users channels record with
    | .error e => .error e
    | .ok d =>
      match mapRecords users channels rest with
      | .error e => .error e
      | .ok ds => .ok (d :: ds)

/-- The first filter of `getem`: `file => file.channels[0]`. -/
def hasChannel (file : RawFile) : Bool := truthyOpt (first file.channels)

/-- The second filter of `getem`: `file => file.permalink`. -/
def hasPermalink (file : Descriptor) : Bool := truthyOpt file.permalink

/-- The last handler of `getem`, the Builder:
`data.files.filter(...).map(...).filter(...)`. -/
def buildDescriptors (users channels : Directory) (files : List RawFile) :
    Except Err (List Descriptor) :=
  match mapRecords users channels (files.filter hasChannel) with
  | .error e => .error e
  | .ok ds => .ok (ds.filter hasPermalink)

/-- The form data of the `files.list` request of `getem`; `now` is `Date.now()`
in milliseconds. -/
structure FilesListForm where
  token : String
  ts_from : Int
  ts_to : Int
  count : Nat
  page : Nat
  deriving DecidableEq

/-- The values of the command line that the script reads from `args`. -/
structure Args where
  token : String
  destination : String
  runDelete : Bool
  cutoffDays : Int
  deriving DecidableEq

/-- The `formData` object of `getem(page)`. -/
def filesListForm (args : Args) (now : Nat) (page : Nat) : FilesListForm :=
  { token := args.token
    ts_from := 0
    ts_to := (now / 1000 : Nat) - args.cutoffDays * 24 * 60 * 60
    count := 50
    page := page }

/-! ## Effects -/

/-- The observable effects of a run, in the order the script causes them. -/
inductive Ev where
  /-- The request `users.list` of `getUsers`. -/
  | usersList
  /-- The request `channels.list` of `getChannels`. -/
  | channelsList
  /-- The line `Fetching page i with n candidates so far`. -/
  | progress (page candidates : Nat)
  /-- The request `files.list` for one page. -/
  | filesList (page : Nat)
  /-- The line that names the file and the folder it is downloaded to. -/
  | intent (filename folder : String)
  /-- The call `fs.ensureDir(folder)`. -/
  | ensureDir (folder : String)
  /-- The call `request({url, headers}).pipe(fs.createWriteStream(dest))`. -/
  | download (url dest token : String)
  /-- The line `Download complete!`. -/
  | complete
  /-- The request `files.delete` for one file id. -/
  | filesDelete (id : String)
  /-- The line `Whoopsie! ...` written by `console.error`. -/
  | whoopsie (message : Err)
  /-- The line `DONE`. -/
  | done
  deriving DecidableEq

/-- How a call that returns a promise ends: the promise is fulfilled or
rejected, the call throws before it returns a promise, or the chain is still
running when the steps allotted to it are used up. -/
inductive Completion (α : Type) where
  | fulfilled (value : α)
  | rejected (reason : Err)
  | threw (reason : Err)
  | running
  deriving DecidableEq

/-- The effects of a call and the way it ends. -/
structure Run (α : Type) where
  events : List Ev
  result : Completion α
  deriving DecidableEq

/-! ## The page loop of `getFiles` -/

/-- The parsed body of a `files.list` response: `data.paging.pages` and `data.files`. -/
structure FilesResponse where
  pages : Nat
  files : List RawFile
  deriving DecidableEq

/-- The remote service as `getFiles` sees it: what `makePromiseRequest` gives
for the request of a page, the parsed body or the error it rejects with. -/
abbrev FilesService := Nat → Except Err FilesResponse

/-- The function `getem(page)`.  The first component is the value of the
variable `maxPages` afterwards: the first handler overwrites it with
`data.paging.pages` on every response. -/
def getem (service : FilesService) (users channels : Directory) (page maxPages : Nat) :
    Nat × Except Err (List Descriptor) :=
  match service page with
  | .error e => (maxPages, .error e)
  | .ok data => (data.pages, buildDescriptors users channels data.files)

/-- The function `getUntil(i, results, count)`, with the variable `maxPages` of
the enclosing `getFiles` passed along.  Each unit of `fuel` pays for one page. -/
def getUntil (service : FilesService) (users channels : Directory) :
    (fuel : Nat) → (i : Nat) → (results : List Descriptor) → (count : Nat) →
    (maxPages : Nat) → Run (List Descriptor)
  | 0, _, _, _, _ => ⟨[], .running⟩
  | fuel + 1, i, results, count, maxPages =>
    let head := [Ev.progress i results.length, Ev.filesList i]
    match getem service users channels i maxPages with
    | (_, .error e) => ⟨head, .rejected e⟩
    | (maxPages, .ok files) =>
      let results := results ++ files
      if results.length ≥ count ∨ i ≥ maxPages then
        ⟨head, .fulfilled results⟩
      else
        let rest := getUntil service users channels fuel (i + 1) results count maxPages
        ⟨head ++ rest.events, rest.result⟩

/-- The function `getFiles(users, channels)`: `maxPages` starts at 1 and the
loop is entered as `getUntil(1, [], 50)`. -/
def getFiles (service : FilesService) (users channels : Directory) (fuel : Nat) :
    Run (List Descriptor) :=
  getUntil service users channels fuel 1 [] 50 1

/-- The page numbers of the `files.list` requests among the events, in order. -/
def requestedPages (events : List Ev) : List Nat :=
  events.filterMap fun
    | .filesList page => some page
    | _ => none

/-! ## The draining loop of `deleteFiles` -/

/-- What the destination write stream of a download reports in the end, or
that the call `request(...)` itself throws before the pipe exists. -/
inductive StreamOutcome where
  | close
  | error (e : Err)
  | requestThrows (e : Err)
  deriving DecidableEq

/-- The file system and the remote service as `deleteFile` sees them. -/
structure Env where
  /-- The outcome of `fs.ensureDir(folder)`. -/
  ensureDir : String → Except Err Unit
  /-- The outcome of the download of `url` into `dest`. -/
  stream : String → String → StreamOutcome
  /-- The outcome of the `files.delete` request for a file id. -/
  filesDelete : String → Except Err Unit

/-- The state of the promise made by `new Promise((res, rej) => ...)`. -/
inductive PState where
  | pending
  | fulfilled
  | rejected (e : Err)
  deriving DecidableEq

/-- A call of the resolver `res`: it settles a pending promise only. -/
def PState.res : PState → PState
  | .pending => .fulfilled
  | s => s

/-- A call of the rejecter `rej`: it settles a pending promise only. -/
def PState.rej (e : Err) : PState → PState
  | .pending => .rejected e
  | s => s

/-- The executor of the download promise, run to its end when `request(...)`
returns: the pipe is set up and the `error` listener attached; then the
argument `res()` of `.on('close', res())` is evaluated, which calls the
resolver; then `.on` is called with the listener `undefined`, throws, and the
promise constructor passes the exception to `rej`. -/
def downloadExecutor : PState :=
  (PState.pending.res).rej "The listener argument must be of type function"

/-- The state of the download promise once the stream has reported: the
`error` listener calls `rej`; no listener is attached for `close`. -/
def downloadPromise : StreamOutcome → PState
  | .requestThrows e => PState.pending.rej e
  | .close => downloadExecutor
  | .error e => downloadExecutor.rej e

/-- The call `path.join(a, b)` on two strings (the normalisation of the
result is left out). -/
def pathJoin (a b : String) : String := a ++ "/" ++ b

/-- The function `deleteFile(file)`.  The call `path.join` throws a `TypeError`
when `file.folder` is `undefined`, before anything is logged. -/
def deleteFile (args : Args) (env : Env) (file : Descriptor) : Run Unit :=
  match file.folder with
  | none => ⟨[], .threw "The path argument must be of type string. Received undefined"⟩
  | some name =>
    let folder := pathJoin args.destination name
    let dest := pathJoin folder file.filename
    let url := display file.permalink
    let intent := Ev.intent file.filename name
    if !args.runDelete then
      ⟨[intent], .fulfilled ()⟩
    else
      match env.ensureDir folder with
      | .error e => ⟨[intent, .ensureDir folder], .rejected e⟩
      | .ok _ =>
        let started := [intent, .ensureDir folder, .download url dest args.token]
        match downloadPromise (env.stream url dest) with
        | .pending => ⟨started, .running⟩
        | .rejected e => ⟨started, .rejected e⟩
        | .fulfilled =>
          match env.filesDelete file.id with
          | .error e => ⟨started ++ [.complete, .filesDelete file.id], .rejected e⟩
          | .ok _ => ⟨started ++ [.complete, .filesDelete file.id], .fulfilled ()⟩

/-- The method `Array.prototype.pop`: the last element, `undefined` for the
empty array, and the array that is left. -/
def pop : List Descriptor → Option Descriptor × List Descriptor
  | [] => (none, [])
  | [x] => (some x, [])
  | x :: y :: rest => ((pop (y :: rest)).1, x :: (pop (y :: rest)).2)

/-- The effects of the draining loop, with the descriptors that were passed to
`deleteFile`, in the order of the calls. -/
structure Drain where
  calls : List Descriptor
  events : List Ev
  result : Completion Unit
  deriving DecidableEq

/-- The function `next()` of `deleteFiles`, on the array `_files`.  An
exception thrown by a later `next`, which runs as a `then` callback, rejects
the chained promise.  Each unit of `fuel` pays for one call of `next`. -/
def next (args : Args) (env : Env) : (fuel : Nat) → (_files : List Descriptor) → Drain
  | 0, _ => ⟨[], [], .running⟩
  | fuel + 1, _files =>
    match pop _files with
    | (none, _) => ⟨[], [], .fulfilled ()⟩
    | (some file, _files) =>
      let one := deleteFile args env file
      match one.result with
      | .fulfilled _ =>
        let rest := next args env fuel _files
        ⟨file :: rest.calls, one.events ++ rest.events,
          match rest.result with
          | .threw e => .rejected e
          | r => r⟩
      | r => ⟨[file], one.events, r⟩

/-- The function `deleteFiles(files)`: `next().catch(...)` on a copy of the
array.  An exception thrown by the first `next()` leaves `deleteFiles` before
`.catch` is reached; a rejection is reported and turned into a fulfilment. -/
def deleteFiles (args : Args) (env : Env) (files : List Descriptor) : Drain :=
  let all := next args env (files.length + 1) files
  match all.result with
  | .rejected e => ⟨all.calls, all.events ++ [.whoopsie e], .fulfilled ()⟩
  | _ => all

/-! ## The top-level chain -/

/-- The remote service as the whole script sees it. -/
structure Service where
  /-- The parsed `members` of `users.list`, as pairs `(id, name)`. -/
  usersList : Except Err (List (String × String))
  /-- The parsed `channels` of `channels.list`, as pairs `(id, name)`. -/
  channelsList : Except Err (List (String × String))
  /-- The answers of `files.list`. -/
  filesList : FilesService

/-- The chain at the end of the script: `Promise.all` of the two directories,
then `getFiles`, then `deleteFiles`, then the line `DONE`.  A rejection or an
exception in a handler skips the handlers after it; nothing catches it. -/
def main (args : Args) (service : Service) (env : Env) (fuel : Nat) : Run Unit :=
  let asked := [Ev.usersList, Ev.channelsList]
  match service.usersList, service.channelsList with
  | .error e, _ => ⟨asked, .rejected e⟩
  | _, .error e => ⟨asked, .rejected e⟩
  | .ok members, .ok chans =>
    let listed := getFiles service.filesList (buildDirectory members) (buildDirectory chans) fuel
    match listed.result with
    | .fulfilled files =>
      let drained := deleteFiles args env files
      match drained.result with
      | .fulfilled _ => ⟨asked ++ listed.events ++ drained.events ++ [.done], .fulfilled ()⟩
      | .rejected e => ⟨asked ++ listed.events ++ drained.events, .rejected e⟩
      | .threw e => ⟨asked ++ listed.events ++ drained.events, .rejected e⟩
      | .running => ⟨asked ++ listed.events ++ drained.events, .running⟩
    | .rejected e => ⟨asked ++ listed.events, .rejected e⟩
    | .threw e => ⟨asked ++ listed.events, .rejected e⟩
    | .running => ⟨asked ++ listed.events, .running⟩

/-! ## Sample inputs -/

/-- A user directory with one user. -/
def sampleUsers : Directory := [("U1", "bob")]

/-- A channel directory with one channel. -/
def sampleChannels : Directory := [("C1", "general")]

/-- A raw entry of July 2018 whose name holds a slash and a colon. -/
def sampleFile : RawFile :=
  { timestamp := 1531763625, user := "U1", name := "a/b:c.txt", channels := ["C1"],
    url_private_download := some "https://files.example/F1", id := "F1" }

/-- The descriptor of `sampleFile`. -/
def sampleDescriptor : Descriptor :=
  { filename := "2018-07-16T17_53_45 - bob - a_b_c.txt", folder := some "general",
    permalink := some "https://files.example/F1", id := "F1" }

/-- An entry whose `channels` array holds one channel id, the empty string. -/
def blankChannelFile : RawFile := { sampleFile with channels := [""], id := "F2" }

/-- An entry whose timestamp is past the last instant a Date can hold. -/
def farFutureFile : RawFile := { sampleFile with timestamp := 10000000000000, id := "F3" }

/-- The command line `--token tok --dest /dst` with the default cutoff of 120 days. -/
def sampleArgs : Args := { token := "tok", destination := "/dst", runDelete := false, cutoffDays := 120 }

/-- A value of `Date.now()` in November 2023. -/
def sampleNow : Nat := 1700000000000

/-- An entry uploaded one second before `sampleNow`. -/
def recentFile : RawFile := { sampleFile with timestamp := 1699999999, id := "F4" }

/-- A service with nothing to list: every response reports zero pages. -/
def zeroPages : FilesService := fun _ => .ok { pages := 0, files := [] }

/-- A service whose first response reports two pages and whose later
responses report three; no page holds a file. -/
def growingPages : FilesService := fun i => .ok { pages := if i = 1 then 2 else 3, files := [] }

/-- A service of two pages, none of which holds a file. -/
def emptyTwoPages : FilesService := fun _ => .ok { pages := 2, files := [] }

/-- The command line of `sampleArgs` with `--run-delete`. -/
def runArgs : Args := { sampleArgs with runDelete := true }

/-- Three descriptors of the channel `general`, in arrival order A, B, C. -/
def fileA : Descriptor :=
  { filename := "a.txt", folder := some "general", permalink := some "https://files.example/A", id := "FA" }

/-- The second of the three descriptors. -/
def fileB : Descriptor :=
  { filename := "b.txt", folder := some "general", permalink := some "https://files.example/B", id := "FB" }

/-- The third of the three descriptors. -/
def fileC : Descriptor :=
  { filename := "c.txt", folder := some "general", permalink := some "https://files.example/C", id := "FC" }

/-- A world in which every call succeeds. -/
def goodEnv : Env :=
  { ensureDir := fun _ => .ok (), stream := fun _ _ => .close, filesDelete := fun _ => .ok () }

/-- A world in which the write stream of every download reports an error and
never reports `close`. -/
def fullDiskEnv : Env :=
  { ensureDir := fun _ => .ok (), stream := fun _ _ => .error "ENOSPC: no space left on device",
    filesDelete := fun _ => .ok () }

/-- A world in which the `files.delete` request for `FB` fails. -/
def deleteFailsEnv : Env :=
  { ensureDir := fun _ => .ok (), stream := fun _ _ => .close,
    filesDelete := fun id => if id = "FB" then .error "ECONNRESET" else .ok () }

/-- An entry shared in a channel that `channels.list` did not return. -/
def orphanFile : RawFile := { sampleFile with channels := ["C9"], id := "F5" }

/-- The descriptor of `orphanFile`: the lookup of its channel gives `undefined`. -/
def orphanDescriptor : Descriptor :=
  { filename := "2018-07-16T17_53_45 - bob - a_b_c.txt", folder := none,
    permalink := some "https://files.example/F1", id := "F5" }

/-- A service with one user, one channel and one page that holds `orphanFile`. -/
def orphanService : Service :=
  { usersList := .ok [("U1", "bob")]
    channelsList := .ok [("C1", "general")]
    filesList := fun _ => .ok { pages := 1, files := [orphanFile] } }

/-! ## The filename derivation and the Builder -/

theorem pathUnsafe_underscore : pathUnsafe '_' = false := by decide

theorem pathUnsafe_iff (c : Char) :
    pathUnsafe c = true ↔ c = '/' ∨ c = Char.ofNat 92 ∨ c = ':' := by
  simp [pathUnsafe, or_assoc]

theorem replaceUnsafe_clean (s : String) :
    ∀ c ∈ (replaceUnsafe s).data, c ≠ '/' ∧ c ≠ Char.ofNat 92 ∧ c ≠ ':' := by
  intro c hc
  simp only [replaceUnsafe, List.mem_map] at hc
  obtain ⟨a, -, rfl⟩ := hc
  by_cases h : pathUnsafe a = true
  · simp only [h, if_true]
    decide
  · simp only [h]
    have := (pathUnsafe_iff a).not.mp h
    simp only [not_or] at this
    simpa using this

theorem toISOString_ok (ms : Int) (hlo : -8640000000000000 ≤ ms) (hhi : ms ≤ 8640000000000000) :
    ∃ iso, toISOString ms = .ok iso := by
  unfold toISOString
  rw [if_neg (by omega)]
  exact ⟨_, rfl⟩

theorem toDescriptor_ok (users channels : Directory) (f : RawFile)
    (hlo : -8640000000000000 ≤ f.timestamp * 1000) (hhi : f.timestamp * 1000 ≤ 8640000000000000) :
    ∃ d, toDescriptor users channels f = .ok d ∧ d.permalink = f.url_private_download ∧ d.id = f.id := by
  obtain ⟨iso, hiso⟩ := toISOString_ok _ hlo hhi
  simp only [toDescriptor, filenameTemplate, hiso]
  exact ⟨_, rfl, rfl, rfl⟩

theorem toDescriptor_permalink (users channels : Directory) (f : RawFile) (d : Descriptor)
    (h : toDescriptor users channels f = .ok d) : d.permalink = f.url_private_download := by
  unfold toDescriptor at h
  split at h
  · exact absurd h (by simp)
  · cases h
    rfl

theorem mapRecords_ok (users channels : Directory) (fs : List RawFile)
    (h : ∀ f ∈ fs, ∃ d, toDescriptor users channels f = .ok d) :
    ∃ ds, mapRecords users channels fs = .ok ds ∧
      List.Forall₂ (fun f d => toDescriptor users channels f = .ok d) fs ds := by
  induction fs with
  | nil => exact ⟨[], rfl, List.Forall₂.nil⟩
  | cons f rest ih =>
    obtain ⟨d, hd⟩ := h f (List.mem_cons_self _ _)
    obtain ⟨ds, hds, hall⟩ := ih fun g hg => h g (List.mem_cons_of_mem _ hg)
    exact ⟨d :: ds, by simp [mapRecords, hd, hds], List.Forall₂.cons hd hall⟩

theorem mapRecords_sound (users channels : Directory) (fs : List RawFile) (ds : List Descriptor)
    (h : mapRecords users channels fs = .ok ds) :
    List.Forall₂ (fun f d => toDescriptor users channels f = .ok d) fs ds := by
  induction fs generalizing ds with
  | nil =>
    cases h
    exact List.Forall₂.nil
  | cons f rest ih =>
    unfold mapRecords at h
    split at h
    · exact absurd h (by simp)
    · rename_i d hd
      split at h
      · exact absurd h (by simp)
      · rename_i ds1 hds
        cases h
        exact List.Forall₂.cons hd (ih _ hds)

theorem forall₂_filter (users channels : Directory) (fs : List RawFile) (ds : List Descriptor)
    (h : List.Forall₂ (fun f d => toDescriptor users channels f = .ok d) fs ds) :
    List.Forall₂ (fun f d => toDescriptor users channels f = .ok d)
      (fs.filter fun f => truthyOpt f.url_private_download) (ds.filter hasPermalink) := by
  induction h with
  | nil => exact List.Forall₂.nil
  | @cons f d fs ds hfd _ ih =>
    have hp := toDescriptor_permalink _ _ _ _ hfd
    by_cases hk : truthyOpt f.url_private_download = true
    · have hk2 : hasPermalink d = true := by simpa [hasPermalink, hp] using hk
      simp only [List.filter_cons, hk, hk2, if_true]
      exact List.Forall₂.cons hfd ih
    · have hk2 : ¬ hasPermalink d = true := by simpa [hasPermalink, hp] using hk
      simp only [List.filter_cons, hk, hk2]
      exact ih

theorem truthyOpt_iff (o : Option String) : truthyOpt o = true ↔ o ≠ none ∧ o ≠ some "" := by
  cases o with
  | none => simp [truthyOpt]
  | some s =>
    obtain ⟨cs⟩ := s
    cases cs with
    | nil => simp [truthyOpt, truthy]
    | cons c cs =>
      have hne : (⟨c :: cs⟩ : String) ≠ "" := fun h => by
        have := congrArg String.data h
        simp at this
      simp [truthyOpt, truthy, hne]

theorem forall₂_mem_right {α β : Type} {R : α → β → Prop} {fs : List α} {ds : List β}
    (h : List.Forall₂ R fs ds) {d : β} (hd : d ∈ ds) : ∃ f ∈ fs, R f d := by
  induction h with
  | nil => exact absurd hd (List.not_mem_nil _)
  | @cons f1 d1 fs1 ds1 h1 _ ih =>
    rcases List.mem_cons.mp hd with rfl | hmem
    · exact ⟨f1, List.mem_cons_self _ _, h1⟩
    · obtain ⟨f, hf, hfd⟩ := ih hmem
      exact ⟨f, List.mem_cons_of_mem _ hf, hfd⟩

theorem forall₂_mem_left {α β : Type} {R : α → β → Prop} {fs : List α} {ds : List β}
    (h : List.Forall₂ R fs ds) {f : α} (hf : f ∈ fs) : ∃ d ∈ ds, R f d := by
  induction h with
  | nil => exact absurd hf (List.not_mem_nil _)
  | @cons f1 d1 fs1 ds1 h1 _ ih =>
    rcases List.mem_cons.mp hf with rfl | hmem
    · exact ⟨d1, List.mem_cons_self _ _, h1⟩
    · obtain ⟨d, hd, hfd⟩ := ih hmem
      exact ⟨d, List.mem_cons_of_mem _ hd, hfd⟩

theorem keep_pred_eq :
    (fun f : RawFile => truthyOpt f.url_private_download && hasChannel f) =
    fun f : RawFile => decide (first f.channels ≠ none ∧ first f.channels ≠ some "" ∧
      f.url_private_download ≠ none ∧ f.url_private_download ≠ some "") := by
  funext f
  rw [Bool.eq_iff_iff]
  simp only [Bool.and_eq_true, hasChannel, truthyOpt_iff, decide_eq_true_eq]
  tauto

theorem buildDescriptors_ok (users channels : Directory) (files : List RawFile)
    (hts : ∀ f ∈ files, -8640000000000000 ≤ f.timestamp * 1000 ∧
      f.timestamp * 1000 ≤ 8640000000000000) :
    ∃ ds, buildDescriptors users channels files = .ok ds ∧
      List.Forall₂ (fun f d => toDescriptor users channels f = .ok d)
        (files.filter fun f => decide (first f.channels ≠ none ∧ first f.channels ≠ some "" ∧
          f.url_private_download ≠ none ∧ f.url_private_download ≠ some "")) ds := by
  obtain ⟨ds0, hds0, hall⟩ := mapRecords_ok users channels (files.filter hasChannel) (by
    intro f hf
    have hmem := (List.mem_filter.mp hf).1
    obtain ⟨d, hd, -⟩ := toDescriptor_ok users channels f (hts f hmem).1 (hts f hmem).2
    exact ⟨d, hd⟩)
  refine ⟨ds0.filter hasPermalink, by simp [buildDescriptors, hds0], ?_⟩
  have := forall₂_filter users channels _ _ hall
  rwa [List.filter_filter, keep_pred_eq] at this

/-- C10: the replacement of the path-unsafe characters is idempotent: applying
it twice gives the same string as applying it once. -/
theorem replaceUnsafe_idempotent (s : String) :
    replaceUnsafe (replaceUnsafe s) = replaceUnsafe s := by
  simp only [replaceUnsafe, List.map_map]
  congr 1
  apply List.map_congr_left
  intro c _
  by_cases h : pathUnsafe c = true
  · simp [h, pathUnsafe_underscore]
  · simp [h]

/-- C9: the filename of every descriptor the Builder produces holds no slash,
backslash or colon; it is the template text of its raw entry with each such
character replaced by an underscore. -/
theorem filename_single_segment (users channels : Directory) (files : List RawFile)
    (ds : List Descriptor) (d : Descriptor)
    (h : buildDescriptors users channels files = .ok ds) (hd : d ∈ ds) :
    (∀ c ∈ d.filename.data, c ≠ '/' ∧ c ≠ Char.ofNat 92 ∧ c ≠ ':') ∧
    ∃ f ∈ files, ∃ t, filenameTemplate users f = .ok t ∧
      d.filename.data =
        t.data.map fun c => if c = '/' ∨ c = Char.ofNat 92 ∨ c = ':' then '_' else c := by
  unfold buildDescriptors at h
  split at h
  · exact absurd h (by simp)
  · rename_i ds0 hds0
    cases h
    have hd0 : d ∈ ds0 := (List.mem_filter.mp hd).1
    have hall := mapRecords_sound users channels _ _ hds0
    obtain ⟨f, hf, hfd⟩ := forall₂_mem_right hall hd0
    unfold toDescriptor at hfd
    split at hfd
    · exact absurd hfd (by simp)
    · rename_i t ht
      cases hfd
      refine ⟨replaceUnsafe_clean t, f, (List.mem_filter.mp hf).1, t, ht, ?_⟩
      simp only [replaceUnsafe]
      apply List.map_congr_left
      intro c _
      by_cases hc : pathUnsafe c = true
      · rw [if_pos hc, if_pos ((pathUnsafe_iff c).mp hc)]
      · rw [if_neg hc, if_neg (fun hh => hc ((pathUnsafe_iff c).mpr hh))]

theorem filename_single_segment_witness :
    (∀ c ∈ sampleDescriptor.filename.data, c ≠ '/' ∧ c ≠ Char.ofNat 92 ∧ c ≠ ':') ∧
    ∃ f ∈ [sampleFile], ∃ t, filenameTemplate sampleUsers f = .ok t ∧
      sampleDescriptor.filename.data =
        t.data.map fun c => if c = '/' ∨ c = Char.ofNat 92 ∨ c = ':' then '_' else c :=
  filename_single_segment sampleUsers sampleChannels [sampleFile] [sampleDescriptor]
    sampleDescriptor (by decide) (by decide)

/-- C6, as the code has it: when every timestamp of the page is one a Date can
hold, the Builder returns the descriptors of exactly the entries whose first
channel id and download link are both present and non-empty, in page order, so
the output is shorter than the page by the number of the other entries. -/
theorem builder_drops_exactly (users channels : Directory) (files : List RawFile)
    (hts : ∀ f ∈ files, -8640000000000000 ≤ f.timestamp * 1000 ∧
      f.timestamp * 1000 ≤ 8640000000000000) :
    ∃ ds, buildDescriptors users channels files = .ok ds ∧
      List.Forall₂ (fun f d => toDescriptor users channels f = .ok d)
        (files.filter fun f => decide (first f.channels ≠ none ∧ first f.channels ≠ some "" ∧
          f.url_private_download ≠ none ∧ f.url_private_download ≠ some "")) ds ∧
      ds.length + files.countP (fun f => decide (first f.channels = none ∨
          first f.channels = some "" ∨ f.url_private_download = none ∨
          f.url_private_download = some "")) = files.length := by
  obtain ⟨ds, hds, hall⟩ := buildDescriptors_ok users channels files hts
  refine ⟨ds, hds, hall, ?_⟩
  rw [← hall.length_eq, ← List.countP_eq_length_filter,
    List.length_eq_countP_add_countP (fun f => decide (first f.channels ≠ none ∧
      first f.channels ≠ some "" ∧ f.url_private_download ≠ none ∧
      f.url_private_download ≠ some "")) files]
  congr 1
  apply List.countP_congr
  intro f _
  simp only [decide_eq_true_eq, ne_eq, decide_not, Bool.not_eq_true', decide_eq_false_iff_not]
  tauto

theorem builder_drops_exactly_witness :
    ∃ ds, buildDescriptors sampleUsers sampleChannels [sampleFile, blankChannelFile] = .ok ds ∧
      List.Forall₂ (fun f d => toDescriptor sampleUsers sampleChannels f = .ok d)
        ([sampleFile, blankChannelFile].filter fun f => decide (first f.channels ≠ none ∧
          first f.channels ≠ some "" ∧
          f.url_private_download ≠ none ∧ f.url_private_download ≠ some "")) ds ∧
      ds.length + [sampleFile, blankChannelFile].countP (fun f => decide (first f.channels = none ∨
          first f.channels = some "" ∨ f.url_private_download = none ∨
          f.url_private_download = some "")) = [sampleFile, blankChannelFile].length :=
  builder_drops_exactly sampleUsers sampleChannels [sampleFile, blankChannelFile] (by decide)

/-- C6 fails as stated: an entry whose `channels` list is not empty and whose
download link is not empty is dropped when its first channel id is the empty
string, and an entry whose timestamp is outside the range of a Date makes the
Builder throw, so that no entry of the page is kept. -/
theorem builder_drops_blank_channel :
    blankChannelFile.channels ≠ [] ∧ blankChannelFile.url_private_download ≠ none ∧
    blankChannelFile.url_private_download ≠ some "" ∧
    buildDescriptors sampleUsers sampleChannels [sampleFile, blankChannelFile] =
      .ok [sampleDescriptor] ∧
    farFutureFile.channels ≠ [] ∧ farFutureFile.url_private_download ≠ some "" ∧
    buildDescriptors sampleUsers sampleChannels [sampleFile, farFutureFile] =
      .error "Invalid time value" := by
  decide

/-- C8, as the code has it: the cutoff enters only the `ts_to` field of the
request, `floor(now / 1000) - cutoffDays * 86400` with `ts_from = 0`; the
Builder applies no age test, so every entry of the page with a first channel
and a download link has its descriptor in the output whatever its timestamp
(when every timestamp of the page is one a Date can hold). -/
theorem builder_ignores_cutoff (args : Args) (now page : Nat) (users channels : Directory)
    (files : List RawFile) (f : RawFile)
    (hts : ∀ g ∈ files, -8640000000000000 ≤ g.timestamp * 1000 ∧
      g.timestamp * 1000 ≤ 8640000000000000)
    (hf : f ∈ files) (hc : hasChannel f = true) (hp : truthyOpt f.url_private_download = true) :
    (filesListForm args now page).ts_from = 0 ∧
    (filesListForm args now page).ts_to = (now / 1000 : Nat) - args.cutoffDays * 86400 ∧
    ∃ ds d, buildDescriptors users channels files = .ok ds ∧
      toDescriptor users channels f = .ok d ∧ d ∈ ds := by
  refine ⟨rfl, by simp only [filesListForm]; ring, ?_⟩
  obtain ⟨ds, hds, hall⟩ := buildDescriptors_ok users channels files hts
  have hkeep : f ∈ files.filter fun f => decide (first f.channels ≠ none ∧
      first f.channels ≠ some "" ∧ f.url_private_download ≠ none ∧
      f.url_private_download ≠ some "") := by
    rw [← keep_pred_eq]
    exact List.mem_filter.mpr ⟨hf, by simp [hc, hp]⟩
  obtain ⟨d, hd, hfd⟩ := forall₂_mem_left hall hkeep
  exact ⟨ds, d, hds, hfd, hd⟩

theorem builder_ignores_cutoff_witness :
    (filesListForm sampleArgs sampleNow 1).ts_from = 0 ∧
    (filesListForm sampleArgs sampleNow 1).ts_to =
      (sampleNow / 1000 : Nat) - sampleArgs.cutoffDays * 86400 ∧
    ∃ ds d, buildDescriptors sampleUsers sampleChannels [sampleFile, recentFile] = .ok ds ∧
      toDescriptor sampleUsers sampleChannels recentFile = .ok d ∧ d ∈ ds :=
  builder_ignores_cutoff sampleArgs sampleNow 1 sampleUsers sampleChannels
    [sampleFile, recentFile] recentFile (by decide) (by decide) (by decide) (by decide)

/-- C8 fails as stated: an entry of the page that is newer than the cutoff sent
to the service has its descriptor in the output of the Builder. -/
theorem builder_keeps_recent_file :
    (filesListForm sampleArgs sampleNow 1).ts_to < recentFile.timestamp ∧
    buildDescriptors sampleUsers sampleChannels [sampleFile, recentFile] =
      .ok [sampleDescriptor,
        { filename := "2023-11-14T22_13_19 - bob - a_b_c.txt", folder := some "general",
          permalink := some "https://files.example/F1", id := recentFile.id }] := by
  decide

/-! ## The page loop -/

theorem requestedPages_append (a b : List Ev) :
    requestedPages (a ++ b) = requestedPages a ++ requestedPages b := by
  simp [requestedPages, List.filterMap_append]

theorem requestedPages_head (i n : Nat) :
    requestedPages [Ev.progress i n, Ev.filesList i] = [i] := rfl

theorem getUntil_succ (service : FilesService) (users channels : Directory)
    (fuel i : Nat) (results : List Descriptor) (count maxPages : Nat) :
    getUntil service users channels (fuel + 1) i results count maxPages =
      match getem service users channels i maxPages with
      | (_, .error e) => ⟨[Ev.progress i results.length, Ev.filesList i], .rejected e⟩
      | (maxPages, .ok files) =>
        if (results ++ files).length ≥ count ∨ i ≥ maxPages then
          ⟨[Ev.progress i results.length, Ev.filesList i], .fulfilled (results ++ files)⟩
        else
          ⟨[Ev.progress i results.length, Ev.filesList i] ++
              (getUntil service users channels fuel (i + 1) (results ++ files) count maxPages).events,
            (getUntil service users channels fuel (i + 1) (results ++ files) count maxPages).result⟩ :=
  rfl

theorem getUntil_requests_le (service : FilesService) (users channels : Directory)
    (P count : Nat) (hP : ∀ i data, service i = .ok data → data.pages ≤ P) :
    ∀ fuel i results maxPages,
      (requestedPages (getUntil service users channels fuel i results count maxPages).events).length
        ≤ max 1 (P + 1 - i) := by
  intro fuel
  induction fuel with
  | zero =>
    intro i results maxPages
    simp [getUntil, requestedPages]
  | succ fuel ih =>
    intro i results maxPages
    rw [getUntil_succ]
    unfold getem
    cases hs : service i with
    | error e => simp [requestedPages]
    | ok data =>
      simp only []
      cases hb : buildDescriptors users channels data.files with
      | error e => simp [requestedPages]
      | ok files =>
        simp only []
        split
        · simp [requestedPages]
        · rename_i hcond
          have hlt : i < data.pages := by omega
          have hle := hP i data hs
          have := ih (i + 1) (results ++ files) data.pages
          rw [requestedPages_append, requestedPages_head, List.length_append]
          simp only [List.length_singleton]
          omega

theorem getUntil_settles (service : FilesService) (users channels : Directory)
    (P count : Nat) (hP : ∀ i data, service i = .ok data → data.pages ≤ P) :
    ∀ fuel i results maxPages, max 1 (P + 1 - i) ≤ fuel →
      (getUntil service users channels fuel i results count maxPages).result ≠ .running := by
  intro fuel
  induction fuel with
  | zero =>
    intro i results maxPages h
    omega
  | succ fuel ih =>
    intro i results maxPages hfuel
    rw [getUntil_succ]
    unfold getem
    cases hs : service i with
    | error e => simp
    | ok data =>
      simp only []
      cases hb : buildDescriptors users channels data.files with
      | error e => simp
      | ok files =>
        simp only []
        split
        · simp
        · rename_i hcond
          have hlt : i < data.pages := by omega
          have hle := hP i data hs
          exact ih (i + 1) (results ++ files) data.pages (by omega)

theorem getUntil_shape (service : FilesService) (users channels : Directory)
    (P count : Nat) (hP : ∀ i data, service i = .ok data → data.pages ≤ P) :
    ∀ fuel i results maxPages, max 1 (P + 1 - i) ≤ fuel →
      ∃ k, i ≤ k ∧ k ≤ max i P ∧
        requestedPages (getUntil service users channels fuel i results count maxPages).events
          = List.range' i (k + 1 - i) ∧
        (∀ j, i ≤ j → j < k → ∃ data, service j = .ok data ∧ j < data.pages) ∧
        ((∃ e, (getUntil service users channels fuel i results count maxPages).result
            = .rejected e) ∨
          ∃ data found, service k = .ok data ∧
            (getUntil service users channels fuel i results count maxPages).result
              = .fulfilled found ∧
            (count ≤ found.length ∨ data.pages ≤ k)) := by
  intro fuel
  induction fuel with
  | zero =>
    intro i results maxPages h
    omega
  | succ fuel ih =>
    intro i results maxPages hfuel
    have hone : List.range' i (i + 1 - i) = [i] := by
      have : i + 1 - i = 1 := by omega
      rw [this]
      rfl
    rw [getUntil_succ]
    unfold getem
    cases hs : service i with
    | error e =>
      refine ⟨i, le_refl _, le_max_left _ _, ?_, fun j h1 h2 => by omega, Or.inl ⟨e, rfl⟩⟩
      rw [hone]
      rfl
    | ok data =>
      simp only []
      cases hb : buildDescriptors users channels data.files with
      | error e =>
        refine ⟨i, le_refl _, le_max_left _ _, ?_, fun j h1 h2 => by omega, Or.inl ⟨e, rfl⟩⟩
        rw [hone]
        rfl
      | ok files =>
        simp only []
        split
        · rename_i hcond
          refine ⟨i, le_refl _, le_max_left _ _, ?_, fun j h1 h2 => by omega,
            Or.inr ⟨data, results ++ files, hs, rfl, ?_⟩⟩
          · rw [hone]
            rfl
          · rcases hcond with hc | hi
            · exact Or.inl hc
            · exact Or.inr hi
        · rename_i hcond
          have hlt : i < data.pages := by omega
          have hle := hP i data hs
          obtain ⟨k, hik, hkP, hreq, hbefore, hend⟩ :=
            ih (i + 1) (results ++ files) data.pages (by omega)
          refine ⟨k, by omega, by omega, ?_, ?_, ?_⟩
          · have hlen : k + 1 - i = (k + 1 - (i + 1)) + 1 := by omega
            rw [requestedPages_append, requestedPages_head, hreq, hlen, List.range'_succ]
            rfl
          · intro j hj1 hj2
            rcases Nat.eq_or_lt_of_le hj1 with rfl | hgt
            · exact ⟨data, hs, hlt⟩
            · exact hbefore j hgt hj2
          · exact hend

/-- C1, as the code has it: when no response reports more than `P` pages, the
page loop issues at most `max 1 P` requests and settles within that many
steps.  It requests the pages 1 to `k` in order for some `k >= 1`, so page 1
is always requested; a page after page `j` is requested only when the
response to page `j` itself reports more than `j` pages; and the loop is
fulfilled at page `k` only when the count has been reached or the response
to page `k` itself reports at most `k` pages. -/
theorem getUntil_terminates_within_bound (service : FilesService) (users channels : Directory)
    (P minCount : Nat) (hP : ∀ i data, service i = .ok data → data.pages ≤ P) :
    (∀ fuel, (requestedPages (getUntil service users channels fuel 1 [] minCount 1).events).length
      ≤ max 1 P) ∧
    (∀ fuel, max 1 P ≤ fuel →
      (getUntil service users channels fuel 1 [] minCount 1).result ≠ .running) ∧
    ∀ fuel, max 1 P ≤ fuel →
      ∃ k, 1 ≤ k ∧ k ≤ max 1 P ∧
        requestedPages (getUntil service users channels fuel 1 [] minCount 1).events
          = List.range' 1 k ∧
        (∀ j, 1 ≤ j → j < k → ∃ data, service j = .ok data ∧ j < data.pages) ∧
        ((∃ e, (getUntil service users channels fuel 1 [] minCount 1).result = .rejected e) ∨
          ∃ data found, service k = .ok data ∧
            (getUntil service users channels fuel 1 [] minCount 1).result = .fulfilled found ∧
            (minCount ≤ found.length ∨ data.pages ≤ k)) := by
  refine ⟨?_, ?_, ?_⟩
  · intro fuel
    have := getUntil_requests_le service users channels P minCount hP fuel 1 [] 1
    simpa using this
  · intro fuel hfuel
    exact getUntil_settles service users channels P minCount hP fuel 1 [] 1 (by simpa using hfuel)
  · intro fuel hfuel
    obtain ⟨k, hk1, hkP, hreq, hbefore, hend⟩ :=
      getUntil_shape service users channels P minCount hP fuel 1 [] 1 (by simpa using hfuel)
    refine ⟨k, hk1, hkP, ?_, hbefore, hend⟩
    simpa using hreq

theorem getUntil_terminates_within_bound_witness :
    ((∀ fuel, (requestedPages (getUntil growingPages [] [] fuel 1 [] 1000 1).events).length
        ≤ max 1 3) ∧
      (∀ fuel, max 1 3 ≤ fuel →
        (getUntil growingPages [] [] fuel 1 [] 1000 1).result ≠ .running) ∧
      ∀ fuel, max 1 3 ≤ fuel →
        ∃ k, 1 ≤ k ∧ k ≤ max 1 3 ∧
          requestedPages (getUntil growingPages [] [] fuel 1 [] 1000 1).events
            = List.range' 1 k ∧
          (∀ j, 1 ≤ j → j < k → ∃ data, growingPages j = .ok data ∧ j < data.pages) ∧
          ((∃ e, (getUntil growingPages [] [] fuel 1 [] 1000 1).result = .rejected e) ∨
            ∃ data found, growingPages k = .ok data ∧
              (getUntil growingPages [] [] fuel 1 [] 1000 1).result = .fulfilled found ∧
              (1000 ≤ found.length ∨ data.pages ≤ k))) ∧
    requestedPages (getUntil growingPages [] [] 3 1 [] 1000 1).events = [1, 2, 3] ∧
    (getUntil growingPages [] [] 3 1 [] 1000 1).result = .fulfilled [] :=
  ⟨getUntil_terminates_within_bound growingPages [] [] 3 1000 (by
    intro i data h
    simp only [growingPages, Except.ok.injEq] at h
    subst h
    simp only []
    split <;> omega), by decide, by decide⟩

/-- C1 fails as stated: when the first response reports zero pages one request
is issued all the same, and when the first response reports two pages and the
second reports three, three requests are issued. -/
theorem getFiles_exceeds_first_page_count :
    zeroPages 1 = .ok { pages := 0, files := [] } ∧
    requestedPages (getFiles zeroPages [] [] 5).events = [1] ∧
    (getFiles zeroPages [] [] 5).result = .fulfilled [] ∧
    growingPages 1 = .ok { pages := 2, files := [] } ∧
    requestedPages (getFiles growingPages [] [] 5).events = [1, 2, 3] ∧
    (getFiles growingPages [] [] 5).result = .fulfilled [] := by
  decide

theorem flatMap_range_succ (out : Nat → List Descriptor) (results : List Descriptor) (i m : Nat) :
    results ++ (List.range' i (m + 1)).flatMap out =
      (results ++ out i) ++ (List.range' (i + 1) m).flatMap out := by
  simp [List.range'_succ]

theorem getUntil_same_count_from (service : FilesService) (users channels : Directory)
    (P count : Nat) (out : Nat → List Descriptor)
    (h : ∀ i, 1 ≤ i → i ≤ P → ∃ data, service i = .ok data ∧ data.pages = P ∧
      buildDescriptors users channels data.files = .ok (out i)) :
    ∀ n i results, 1 ≤ i → i ≤ P → P - i = n →
      ∃ m, 1 ≤ m ∧ i + m ≤ P + 1 ∧
        (count ≤ (results ++ (List.range' i m).flatMap out).length ∨ P + 1 ≤ i + m) ∧
        (∀ j, 1 ≤ j → j < m →
          ¬ (count ≤ (results ++ (List.range' i j).flatMap out).length ∨ P + 1 ≤ i + j)) ∧
        ∀ fuel maxPages, m ≤ fuel →
          requestedPages (getUntil service users channels fuel i results count maxPages).events
            = List.range' i m ∧
          (getUntil service users channels fuel i results count maxPages).result
            = .fulfilled (results ++ (List.range' i m).flatMap out) := by
  intro n
  induction n with
  | zero =>
    intro i results h1 hiP hn
    obtain ⟨data, hs, hpages, hb⟩ := h i h1 hiP
    refine ⟨1, le_refl _, by omega, Or.inr (by omega), fun j hj1 hj2 => by omega, ?_⟩
    intro fuel maxPages hfuel
    obtain ⟨fuel, rfl⟩ : ∃ f, fuel = f + 1 := ⟨fuel - 1, by omega⟩
    rw [getUntil_succ]
    simp only [getem, hs, hb, hpages]
    rw [if_pos (Or.inr (by omega))]
    simp [requestedPages]
  | succ n ih =>
    intro i results h1 hiP hn
    obtain ⟨data, hs, hpages, hb⟩ := h i h1 hiP
    by_cases hstop : (results ++ out i).length ≥ count ∨ i ≥ P
    · refine ⟨1, le_refl _, by omega, ?_, fun j hj1 hj2 => by omega, ?_⟩
      · rcases hstop with hc | hi
        · left
          simpa using hc
        · right
          omega
      · intro fuel maxPages hfuel
        obtain ⟨fuel, rfl⟩ : ∃ f, fuel = f + 1 := ⟨fuel - 1, by omega⟩
        rw [getUntil_succ]
        simp only [getem, hs, hb, hpages]
        rw [if_pos hstop]
        simp [requestedPages]
    · obtain ⟨m, hm1, hmP, hstopm, hleast, hrun⟩ :=
        ih (i + 1) (results ++ out i) (by omega) (by omega) (by omega)
      refine ⟨m + 1, by omega, by omega, ?_, ?_, ?_⟩
      · rw [flatMap_range_succ]
        rcases hstopm with hc | hi
        · exact Or.inl hc
        · exact Or.inr (by omega)
      · intro j hj1 hj2
        obtain ⟨j, rfl⟩ : ∃ j0, j = j0 + 1 := ⟨j - 1, by omega⟩
        rw [flatMap_range_succ]
        rcases Nat.eq_zero_or_pos j with rfl | hjpos
        · intro hcontra
          apply hstop
          rcases hcontra with hc | hi
          · left
            simpa using hc
          · right
            omega
        · intro hcontra
          apply hleast j hjpos (by omega)
          rcases hcontra with hc | hi
          · exact Or.inl hc
          · exact Or.inr (by omega)
      · intro fuel maxPages hfuel
        obtain ⟨fuel, rfl⟩ : ∃ f, fuel = f + 1 := ⟨fuel - 1, by omega⟩
        rw [getUntil_succ]
        simp only [getem, hs, hb, hpages]
        rw [if_neg hstop]
        obtain ⟨hreq, hres⟩ := hrun fuel P (by omega)
        simp only []
        rw [requestedPages_append, requestedPages_head, hreq, hres, flatMap_range_succ]
        exact ⟨by simp [List.range'_succ], rfl⟩

/-- C2: when the responses to the pages 1 to `P` all report `P >= 1` pages and
the Builder turns page `i` into `out i`, the loop started as
`getUntil(1, [], minCount)` requests exactly the pages 1 to `k` in increasing
order, where `k` is the least page at which the accumulated count reaches
`minCount` or the page number reaches `P`, and it is fulfilled with the
untruncated concatenation of `out 1` to `out k`; when `minCount` is not
reached before page `P`, then `k = P`. -/
theorem getUntil_requests_pages_in_order (service : FilesService) (users channels : Directory)
    (P minCount : Nat) (out : Nat → List Descriptor) (hP : 1 ≤ P)
    (h : ∀ i, 1 ≤ i → i ≤ P → ∃ data, service i = .ok data ∧ data.pages = P ∧
      buildDescriptors users channels data.files = .ok (out i)) :
    ∃ k, 1 ≤ k ∧ k ≤ P ∧
      (minCount ≤ ((List.range' 1 k).flatMap out).length ∨ P ≤ k) ∧
      (∀ j, 1 ≤ j → j < k → ¬ (minCount ≤ ((List.range' 1 j).flatMap out).length ∨ P ≤ j)) ∧
      (∀ fuel maxPages, k ≤ fuel →
        requestedPages (getUntil service users channels fuel 1 [] minCount maxPages).events
          = List.range' 1 k ∧
        (getUntil service users channels fuel 1 [] minCount maxPages).result
          = .fulfilled ((List.range' 1 k).flatMap out)) ∧
      ((∀ j, 1 ≤ j → j < P → ((List.range' 1 j).flatMap out).length < minCount) → k = P) := by
  obtain ⟨k, hk1, hkP, hstop, hleast, hrun⟩ :=
    getUntil_same_count_from service users channels P minCount out h (P - 1) 1 [] (le_refl _) hP rfl
  simp only [List.nil_append] at hstop hleast hrun
  refine ⟨k, hk1, by omega, ?_, ?_, hrun, ?_⟩
  · rcases hstop with hc | hi
    · exact Or.inl hc
    · exact Or.inr (by omega)
  · intro j hj1 hj2 hcontra
    apply hleast j hj1 hj2
    rcases hcontra with hc | hi
    · exact Or.inl hc
    · exact Or.inr (by omega)
  · intro hnever
    rcases hstop with hc | hi
    · by_contra hne
      have := hnever k hk1 (by omega)
      omega
    · omega

theorem getUntil_requests_pages_in_order_witness :
    (∃ k, 1 ≤ k ∧ k ≤ 2 ∧
      (1000 ≤ ((List.range' 1 k).flatMap fun _ => ([] : List Descriptor)).length ∨ 2 ≤ k) ∧
      (∀ j, 1 ≤ j → j < k →
        ¬ (1000 ≤ ((List.range' 1 j).flatMap fun _ => ([] : List Descriptor)).length ∨ 2 ≤ j)) ∧
      (∀ fuel maxPages, k ≤ fuel →
        requestedPages (getUntil emptyTwoPages [] [] fuel 1 [] 1000 maxPages).events
          = List.range' 1 k ∧
        (getUntil emptyTwoPages [] [] fuel 1 [] 1000 maxPages).result
          = .fulfilled ((List.range' 1 k).flatMap fun _ => ([] : List Descriptor))) ∧
      ((∀ j, 1 ≤ j → j < 2 →
        ((List.range' 1 j).flatMap fun _ => ([] : List Descriptor)).length < 1000) → k = 2)) ∧
    requestedPages (getUntil emptyTwoPages [] [] 2 1 [] 1000 1).events = [1, 2] ∧
    (getUntil emptyTwoPages [] [] 2 1 [] 1000 1).result = .fulfilled [] :=
  ⟨getUntil_requests_pages_in_order emptyTwoPages [] [] 2 1000 (fun _ => []) (by decide)
    (fun _ _ _ => ⟨_, rfl, rfl, rfl⟩), by decide, by decide⟩

/-! ## The draining loop -/

theorem pop_concat (xs : List Descriptor) (x : Descriptor) : pop (xs ++ [x]) = (some x, xs) := by
  induction xs with
  | nil => rfl
  | cons y ys ih =>
    cases ys with
    | nil => rfl
    | cons z zs =>
      have hstep : pop (y :: z :: zs ++ [x]) =
          ((pop (z :: zs ++ [x])).1, y :: (pop (z :: zs ++ [x])).2) := rfl
      rw [hstep, ih]

theorem next_succ_nil (args : Args) (env : Env) (fuel : Nat) :
    next args env (fuel + 1) [] = ⟨[], [], .fulfilled ()⟩ := rfl

theorem next_succ_concat (args : Args) (env : Env) (fuel : Nat) (xs : List Descriptor)
    (x : Descriptor) :
    next args env (fuel + 1) (xs ++ [x]) =
      match (deleteFile args env x).result with
      | .fulfilled _ =>
        ⟨x :: (next args env fuel xs).calls,
          (deleteFile args env x).events ++ (next args env fuel xs).events,
          match (next args env fuel xs).result with
          | .threw e => .rejected e
          | r => r⟩
      | r => ⟨[x], (deleteFile args env x).events, r⟩ := by
  simp only [next, pop_concat]

theorem next_all_fulfilled (args : Args) (env : Env) (files : List Descriptor)
    (hok : ∀ f ∈ files, (deleteFile args env f).result = .fulfilled ()) :
    ∀ fuel, files.length < fuel →
      next args env fuel files =
        ⟨files.reverse, files.reverse.flatMap (fun f => (deleteFile args env f).events),
          .fulfilled ()⟩ := by
  induction files using List.reverseRecOn with
  | nil =>
    intro fuel hfuel
    obtain ⟨fuel, rfl⟩ : ∃ f, fuel = f + 1 := ⟨fuel - 1, by simp at hfuel; omega⟩
    rfl
  | append_singleton xs x ih =>
    intro fuel hfuel
    simp only [List.length_append, List.length_singleton] at hfuel
    obtain ⟨fuel, rfl⟩ : ∃ f, fuel = f + 1 := ⟨fuel - 1, by omega⟩
    have hx := hok x (by simp)
    have hxs := ih (fun f hf => hok f (by simp [hf])) fuel (by omega)
    rw [next_succ_concat, hx]
    simp only [hxs, List.reverse_append, List.reverse_cons, List.reverse_nil, List.nil_append,
      List.singleton_append, List.flatMap_cons]

/-- C3: when no element fails, `deleteFiles` passes the descriptors to
`deleteFile` in exactly the reverse of the order of the input list, each one
once: its effects are the effects of `deleteFile` on the last descriptor, then
on the one before it, and so on to the first, and it is fulfilled. -/
theorem deleteFiles_last_added_first (args : Args) (env : Env) (files : List Descriptor)
    (hok : ∀ f ∈ files, (deleteFile args env f).result = .fulfilled ()) :
    (deleteFiles args env files).calls = files.reverse ∧
    (deleteFiles args env files).events =
      files.reverse.flatMap (fun f => (deleteFile args env f).events) ∧
    (deleteFiles args env files).result = .fulfilled () := by
  have h := next_all_fulfilled args env files hok (files.length + 1) (Nat.lt_succ_self _)
  refine ⟨?_, ?_, ?_⟩ <;> simp [deleteFiles, h]

theorem deleteFiles_last_added_first_witness :
    ((deleteFiles runArgs goodEnv [fileA, fileB, fileC]).calls = [fileA, fileB, fileC].reverse ∧
      (deleteFiles runArgs goodEnv [fileA, fileB, fileC]).events =
        [fileA, fileB, fileC].reverse.flatMap (fun f => (deleteFile runArgs goodEnv f).events) ∧
      (deleteFiles runArgs goodEnv [fileA, fileB, fileC]).result = .fulfilled ()) ∧
    (deleteFiles runArgs goodEnv [fileA, fileB, fileC]).calls = [fileC, fileB, fileA] ∧
    (deleteFiles runArgs goodEnv [fileA, fileB, fileC]).events =
      [.intent "c.txt" "general", .ensureDir "/dst/general",
        .download "https://files.example/C" "/dst/general/c.txt" "tok",
        .complete, .filesDelete "FC",
        .intent "b.txt" "general", .ensureDir "/dst/general",
        .download "https://files.example/B" "/dst/general/b.txt" "tok",
        .complete, .filesDelete "FB",
        .intent "a.txt" "general", .ensureDir "/dst/general",
        .download "https://files.example/A" "/dst/general/a.txt" "tok",
        .complete, .filesDelete "FA"] :=
  ⟨deleteFiles_last_added_first runArgs goodEnv [fileA, fileB, fileC] (by decide),
    by decide, by decide⟩

theorem downloadPromise_close : downloadPromise .close = .fulfilled := rfl

theorem downloadPromise_error (e : Err) : downloadPromise (.error e) = .fulfilled := rfl

theorem next_rejection (args : Args) (env : Env) (front : List Descriptor) (f : Descriptor)
    (e : Err) (hf : (deleteFile args env f).result = .rejected e) (back : List Descriptor)
    (hback : ∀ g ∈ back, (deleteFile args env g).result = .fulfilled ()) :
    ∀ fuel, back.length < fuel →
      next args env fuel (front ++ f :: back) =
        ⟨back.reverse ++ [f],
          back.reverse.flatMap (fun g => (deleteFile args env g).events)
            ++ (deleteFile args env f).events,
          .rejected e⟩ := by
  induction back using List.reverseRecOn with
  | nil =>
    intro fuel hfuel
    obtain ⟨fuel, rfl⟩ : ∃ n, fuel = n + 1 := ⟨fuel - 1, by simp at hfuel; omega⟩
    rw [next_succ_concat, hf]
    simp
  | append_singleton xs x ih =>
    intro fuel hfuel
    simp only [List.length_append, List.length_singleton] at hfuel
    obtain ⟨fuel, rfl⟩ : ∃ n, fuel = n + 1 := ⟨fuel - 1, by omega⟩
    have hx := hback x (by simp)
    have hxs := ih (fun g hg => hback g (by simp [hg])) fuel (by omega)
    have hsplit : front ++ f :: (xs ++ [x]) = (front ++ f :: xs) ++ [x] := by simp
    rw [hsplit, next_succ_concat, hx]
    simp only [hxs, List.reverse_append, List.reverse_cons, List.reverse_nil, List.nil_append,
      List.singleton_append, List.flatMap_cons, List.cons_append, List.append_assoc]

/-- A rejection of the promise of `deleteFile` (a failed `ensureDir` or a failed
`files.delete` request) is contained: the elements still queued are not passed
to `deleteFile`, the error is reported, and `deleteFiles` is fulfilled. -/
theorem deleteFiles_rejection_contained (args : Args) (env : Env) (front back : List Descriptor)
    (f : Descriptor) (e : Err) (hf : (deleteFile args env f).result = .rejected e)
    (hback : ∀ g ∈ back, (deleteFile args env g).result = .fulfilled ()) :
    (deleteFiles args env (front ++ f :: back)).calls = back.reverse ++ [f] ∧
    (deleteFiles args env (front ++ f :: back)).events =
      back.reverse.flatMap (fun g => (deleteFile args env g).events)
        ++ (deleteFile args env f).events ++ [.whoopsie e] ∧
    (deleteFiles args env (front ++ f :: back)).result = .fulfilled () := by
  have h := next_rejection args env front f e hf back hback ((front ++ f :: back).length + 1)
    (by simp; omega)
  simp only [deleteFiles, h]
  simp

theorem deleteFiles_rejection_contained_witness :
    (deleteFiles runArgs deleteFailsEnv ([fileA] ++ fileB :: [fileC])).calls
      = [fileC].reverse ++ [fileB] ∧
    (deleteFiles runArgs deleteFailsEnv ([fileA] ++ fileB :: [fileC])).events =
      [fileC].reverse.flatMap (fun g => (deleteFile runArgs deleteFailsEnv g).events)
        ++ (deleteFile runArgs deleteFailsEnv fileB).events ++ [.whoopsie "ECONNRESET"] ∧
    (deleteFiles runArgs deleteFailsEnv ([fileA] ++ fileB :: [fileC])).result = .fulfilled () :=
  deleteFiles_rejection_contained runArgs deleteFailsEnv [fileA] [fileC] fileB "ECONNRESET"
    (by decide) (by decide)

theorem deleteFile_dry_run (args : Args) (env : Env) (f : Descriptor) (name : String)
    (hdry : args.runDelete = false) (hfolder : f.folder = some name) :
    deleteFile args env f = ⟨[.intent f.filename name], .fulfilled ()⟩ := by
  simp [deleteFile, hfolder, hdry]

/-- In observation-only mode, when every descriptor has a folder, `deleteFiles`
reports one intent per descriptor, last added first, issues no other call and
is fulfilled. -/
theorem deleteFiles_dry_run (args : Args) (env : Env) (files : List Descriptor)
    (hdry : args.runDelete = false) (hfolders : ∀ f ∈ files, f.folder ≠ none) :
    (deleteFiles args env files).events =
      files.reverse.map (fun f => Ev.intent f.filename (display f.folder)) ∧
    (deleteFiles args env files).result = .fulfilled () := by
  have hone : ∀ f ∈ files, deleteFile args env f =
      ⟨[.intent f.filename (display f.folder)], .fulfilled ()⟩ := by
    intro f hf
    cases hfo : f.folder with
    | none => exact absurd hfo (hfolders f hf)
    | some name => exact deleteFile_dry_run args env f name hdry hfo
  have h := next_all_fulfilled args env files (fun f hf => by rw [hone f hf])
    (files.length + 1) (Nat.lt_succ_self _)
  have hev : files.reverse.flatMap (fun f => (deleteFile args env f).events) =
      files.reverse.map (fun f => Ev.intent f.filename (display f.folder)) := by
    have hrev : ∀ f ∈ files.reverse, deleteFile args env f =
        ⟨[.intent f.filename (display f.folder)], .fulfilled ()⟩ :=
      fun f hf => hone f (List.mem_reverse.mp hf)
    generalize files.reverse = l at hrev
    induction l with
    | nil => rfl
    | cons x xs ih =>
      rw [List.flatMap_cons, List.map_cons, hrev x (List.mem_cons_self _ _),
        ih (fun f hf => hrev f (List.mem_cons_of_mem _ hf))]
      rfl
  constructor <;> simp [deleteFiles, h, hev]

theorem deleteFiles_dry_run_witness :
    (deleteFiles sampleArgs goodEnv [fileA, fileB]).events =
      [fileA, fileB].reverse.map (fun f => Ev.intent f.filename (display f.folder)) ∧
    (deleteFiles sampleArgs goodEnv [fileA, fileB]).result = .fulfilled () :=
  deleteFiles_dry_run sampleArgs goodEnv [fileA, fileB] rfl (by decide)

/-- C7 fails on the code: in run-delete mode the write stream of the download
of `fileA` reports an error and never reports `close`, and `deleteFile` still
logs the completion and issues `files.delete` for the id of `fileA`. -/
theorem deleteFile_deletes_without_close :
    fullDiskEnv.stream "https://files.example/A" "/dst/general/a.txt" =
      .error "ENOSPC: no space left on device" ∧
    deleteFile runArgs fullDiskEnv fileA =
      ⟨[.intent "a.txt" "general", .ensureDir "/dst/general",
        .download "https://files.example/A" "/dst/general/a.txt" "tok",
        .complete, .filesDelete "FA"], .fulfilled ()⟩ := by
  decide

/-- C4 fails on the code: in run-delete mode, with the candidates A, B in
arrival order, the write of the download of B fails; `deleteFiles` reports no
error, deletes B from the service, and goes on to download and delete A. -/
theorem deleteFiles_continues_after_write_error :
    fullDiskEnv.stream "https://files.example/B" "/dst/general/b.txt" =
      .error "ENOSPC: no space left on device" ∧
    deleteFiles runArgs fullDiskEnv [fileA, fileB] =
      ⟨[fileB, fileA],
        [.intent "b.txt" "general", .ensureDir "/dst/general",
          .download "https://files.example/B" "/dst/general/b.txt" "tok",
          .complete, .filesDelete "FB",
          .intent "a.txt" "general", .ensureDir "/dst/general",
          .download "https://files.example/A" "/dst/general/a.txt" "tok",
          .complete, .filesDelete "FA"],
        .fulfilled ()⟩ := by
  decide

/-- C5 fails on the code: in observation-only mode, a listed file whose first
channel is not in the channel directory gets a descriptor without a folder;
`deleteFile` throws on it before the intent is reported, the exception leaves
`deleteFiles`, and the run ends rejected without the line `DONE`. -/
theorem dry_run_unknown_channel_aborts :
    sampleArgs.runDelete = false ∧
    (getFiles orphanService.filesList (buildDirectory [("U1", "bob")])
        (buildDirectory [("C1", "general")]) 5).result =
      .fulfilled [orphanDescriptor] ∧
    orphanDescriptor.folder = none ∧
    main sampleArgs orphanService goodEnv 5 =
      ⟨[.usersList, .channelsList, .progress 1 0, .filesList 1],
        .rejected "The path argument must be of type string. Received undefined"⟩ := by
  decide

end ArchiveSlackFiles
